import Mathlib

/-!
Verification of the clustering / merge engine of `src/forge.py` (the
"ClawBeat" forge script).  The definitions below are a shallow embedding of
the Python source: pure functions over lists, with machine floats modelled
as exact rationals, `None` as `Option.none`, and a raised exception as an
`Option.none` result of the whole operation.
-/

namespace Forge

attribute [local semireducible] Rat.mul Rat.add Rat.sub Rat.inv

/-- Embedding of the article dictionaries built in `scan_rss` /
`scan_google_news` and consumed by `cluster_articles_temporal`:
fields `title`, `url`, `source`, `date`, `summary`, `density`, `vec`,
and the `moreCoverage` list of `(source, url)` pairs attached to anchors. -/
structure Article where
  title : String
  url : String
  source : String
  date : String
  summary : String
  density : Nat
  vec : Option (List ℚ)
  moreCoverage : List (String × String)
deriving DecidableEq, Repr

/-- Dot product of two vectors, `np.dot(v1, v2)` (floats modelled as ℚ). -/
def dot (v w : List ℚ) : ℚ := (List.zipWith (fun x y => x * y) v w).sum

/-- Squared magnitude of a vector: `np.linalg.norm(v) ** 2`. -/
def normSq (v : List ℚ) : ℚ := dot v v

/-- Boolean test `cosine_similarity(v, w) > t` for a positive threshold `t`,
from line 57 (`np.dot(v1, v2) / (np.linalg.norm(v1) * np.linalg.norm(v2))`)
and the comparison at line 203.  Squaring eliminates the square roots:
for `t > 0` and nondegenerate vectors, `dot/(‖v‖‖w‖) > t` holds iff
`dot > 0` and `t² · ‖v‖²‖w‖² < dot²`.  When either magnitude is zero the
IEEE quotient is `0.0/0.0 = NaN` and `NaN > t` is `False`, which the
`0 < normSq v * normSq w` conjunct reproduces. -/
def simGT (v w : List ℚ) (t : ℚ) : Bool :=
  decide (0 < normSq v * normSq w ∧ 0 < dot v w ∧
    t ^ 2 * (normSq v * normSq w) < dot v w ^ 2)

/-- Numeric value of a decimal digit character. -/
def digitVal (c : Char) : Nat := c.toNat - 48

/-- Month field of `strptime`'s `%m` directive: the pattern
`1[0-2]|0[1-9]|[1-9]`, two digits preferred over one.  Returns the month and
the unconsumed characters. -/
def parseMonth : List Char → Option (Nat × List Char)
  | c1 :: c2 :: rest =>
    if (c1 == '1' && (c2 == '0' || c2 == '1' || c2 == '2')) ||
        (c1 == '0' && c2.isDigit && c2 != '0') then
      some (digitVal c1 * 10 + digitVal c2, rest)
    else if c1.isDigit && c1 != '0' then some (digitVal c1, c2 :: rest)
    else none
  | [c1] => if c1.isDigit && c1 != '0' then some (digitVal c1, []) else none
  | [] => none

/-- Day field of `strptime`'s `%d` directive: the pattern
`3[01]|[12]\d|0[1-9]|[1-9]`, two digits preferred over one. -/
def parseDay : List Char → Option (Nat × List Char)
  | c1 :: c2 :: rest =>
    if (c1 == '3' && (c2 == '0' || c2 == '1')) ||
        ((c1 == '1' || c1 == '2') && c2.isDigit) ||
        (c1 == '0' && c2.isDigit && c2 != '0') then
      some (digitVal c1 * 10 + digitVal c2, rest)
    else if c1.isDigit && c1 != '0' then some (digitVal c1, c2 :: rest)
    else none
  | [c1] => if c1.isDigit && c1 != '0' then some (digitVal c1, []) else none
  | [] => none

/-- Gregorian leap-year rule used by `datetime`. -/
def isLeap (y : Nat) : Bool := y % 4 == 0 && (y % 100 != 0 || y % 400 == 0)

/-- Number of days of a month, as validated by the `datetime` constructor. -/
def daysInMonth (y m : Nat) : Nat :=
  if m == 2 then (if isLeap y then 29 else 28)
  else if m == 4 || m == 6 || m == 9 || m == 11 then 30 else 31

/-- Model of `datetime.strptime(s, "%m-%d-%Y")` (line 220): month, `-`, day,
`-`, exactly four year digits, end of string, then calendar validation by
the `datetime` constructor (day bounded by the month length, year at least
1).  `none` models the raised `ValueError`. -/
def parseDate (s : String) : Option (Nat × Nat × Nat) :=
  match parseMonth s.data with
  | some (m, '-' :: r1) =>
    match parseDay r1 with
    | some (d, '-' :: c1 :: c2 :: c3 :: c4 :: []) =>
      if c1.isDigit && c2.isDigit && c3.isDigit && c4.isDigit then
        let y := digitVal c1 * 1000 + digitVal c2 * 100 + digitVal c3 * 10 + digitVal c4
        if 1 ≤ y ∧ d ≤ daysInMonth y m then some (y, m, d) else none
      else none
    | _ => none
  | _ => none

/-- Sort key of the final sort: the parsed date collapsed to a single
number ordered like the `datetime` object (the default is unreachable in
`mergeStep`, which fails first when any date does not parse). -/
def dateKeyD (a : Article) : Nat :=
  match parseDate a.date with
  | some (y, m, d) => y * 10000 + m * 100 + d
  | none => 0

/-- Ordering relation of `day_articles.sort(key=density, reverse=True)`
(line 195): `a` may precede `b` iff `a`'s density is at least `b`'s.
Insertion sort with this relation is exactly the stable descending sort. -/
def densGE (a b : Article) : Prop := b.density ≤ a.density

instance : DecidableRel densGE := fun a b => Nat.decLe b.density a.density

instance : IsTotal Article densGE := ⟨fun a b => Nat.le_total b.density a.density⟩

instance : IsTrans Article densGE := ⟨fun _ _ _ hab hbc => le_trans hbc hab⟩

/-- Ordering relation of the final
`final_news.sort(key=strptime(date), reverse=True)` (line 220). -/
def dateGE (a b : Article) : Prop := dateKeyD b ≤ dateKeyD a

instance : DecidableRel dateGE := fun a b => Nat.decLe (dateKeyD b) (dateKeyD a)

instance : IsTotal Article dateGE := ⟨fun a b => Nat.le_total (dateKeyD b) (dateKeyD a)⟩

instance : IsTrans Article dateGE := ⟨fun _ _ _ hab hbc => le_trans hbc hab⟩

/-- Similarity of an article's vector against a cluster's anchor
(`cosine_similarity(np.array(art['vec']), np.array(cluster[0]['vec']))`,
line 202).  Clusters are built nonempty with embedded anchors, so the
fallback branches are unreachable. -/
def anchorMatches (t : ℚ) (v : List ℚ) : List Article → Bool
  | [] => false
  | a :: _ =>
    match a.vec with
    | some w => simGT v w t
    | none => false

/-- One pass of the inner `for cluster in daily_clusters` loop
(lines 201-206): append the article to the first cluster whose anchor is
similar enough; `none` when no cluster matches. -/
def addToFirstMatch (t : ℚ) (v : List ℚ) (x : Article) :
    List (List Article) → Option (List (List Article))
  | [] => none
  | c :: cs =>
    if anchorMatches t v c then some ((c ++ [x]) :: cs)
    else
      match addToFirstMatch t v x cs with
      | some cs' => some (c :: cs')
      | none => none

/-- Body of the `for art in day_articles` loop (lines 198-207): skip
articles without a vector, otherwise join the first matching cluster or
open a new singleton cluster at the end. -/
def clusterStep (t : ℚ) (cls : List (List Article)) (x : Article) : List (List Article) :=
  match x.vec with
  | none => cls
  | some v =>
    match addToFirstMatch t v x cls with
    | some cls' => cls'
    | none => cls ++ [[x]]

/-- The `daily_clusters` built for one date bucket (lines 194-207): stable
densest-first sort, then the greedy anchor-only pass. -/
def clustersForDay (t : ℚ) (dayArticles : List Article) : List (List Article) :=
  (List.insertionSort densGE dayArticles).foldl (clusterStep t) []

/-- Keys of the `date_buckets` dict in insertion order (lines 185-189):
first occurrence of each date in the batch. -/
def bucketKeys (arts : List Article) : List String :=
  arts.foldl (fun ks a => if a.date ∈ ks then ks else ks ++ [a.date]) []

/-- Every cluster produced by the run, in bucket-key order: the
`date_buckets[d]` list is the batch filtered to the bucket's date. -/
def allClusters (t : ℚ) (arts : List Article) : List (List Article) :=
  ((bucketKeys arts).map
    (fun d => clustersForDay t (arts.filter (fun a => decide (a.date = d))))).flatten

/-- Anchor promotion (lines 209-212): the cluster's first member carries a
`moreCoverage` entry for every other member. -/
def withCoverage : List Article → Option Article
  | [] => none
  | a :: rest => some { a with moreCoverage := rest.map (fun x => (x.source, x.url)) }

/-- The `current_batch_clustered` list (lines 191-212): the anchors of all
clusters, in bucket order then cluster-creation order. -/
def current_batch_clustered (t : ℚ) (arts : List Article) : List Article :=
  (allClusters t arts).filterMap withCoverage

/-- New anchors surviving the URL dedup against the history (lines 216-217):
`[a for a in current_batch_clustered if a['url'] not in existing_urls]`. -/
def filteredNew (newClustered existingItems : List Article) : List Article :=
  newClustered.filter (fun a => decide (a.url ∉ existingItems.map (fun b => b.url)))

/-- The `final_news` list before the final sort (line 217): surviving new
anchors prepended to the history. -/
def finalNews (newClustered existingItems : List Article) : List Article :=
  filteredNew newClustered existingItems ++ existingItems

/-- The merge step (lines 214-221): dedup against history, stable sort by
parsed date descending, truncate to the 1000-entry rolling window.  `none`
models the `ValueError` that `strptime` raises while the sort computes its
keys when some entry's date does not parse. -/
def mergeStep (newClustered existingItems : List Article) : Option (List Article) :=
  let fn := finalNews newClustered existingItems
  if fn.all (fun a => (parseDate a.date).isSome) then
    some ((List.insertionSort dateGE fn).take 1000)
  else none

/-- Model of `get_embeddings_batch` (lines 77-91): the service, abstracted
as a function `svc` from a batch of texts to `some` vectors or a failure,
is called on successive batches of five; a failed batch contributes
`None` for each of its texts (`all_embeddings.extend([None] * len(batch))`),
and the function always returns without raising. -/
def getEmb (svc : List String → Option (List (List ℚ))) :
    (texts : List String) → List (Option (List ℚ))
  | [] => []
  | t :: ts =>
    (match svc ((t :: ts).take 5) with
      | some r => r.map some
      | none => List.replicate ((t :: ts).take 5).length none) ++ getEmb svc (ts.drop 4)
termination_by texts => texts.length
decreasing_by
  simp only [List.length_cons, List.length_drop]
  omega

/-- Embedding input texts (line 180): `f"{a['title']}: {a['summary'][:100]}"`
for the articles still lacking a vector, in batch order. -/
def embedTexts (arts : List Article) : List String :=
  (arts.filter (fun a => a.vec.isNone)).map (fun a => a.title ++ ": " ++ a.summary.take 100)

/-- Assignment loop of line 182: each article without a vector consumes the
next result, in order; articles that already have one are untouched. -/
def assignVecs : List Article → List (Option (List ℚ)) → List Article
  | [], _ => []
  | a :: rest, vs =>
    if a.vec.isNone then
      match vs with
      | [] => a :: assignVecs rest []
      | v :: vs' => { a with vec := v } :: assignVecs rest vs'
    else a :: assignVecs rest vs

/-- Lines 178-182: fetch and assign embeddings for the articles that need
them (skipped entirely when none do). -/
def embedStep (svc : List String → Option (List (List ℚ))) (arts : List Article) :
    List Article :=
  if (arts.filter (fun a => a.vec.isNone)).isEmpty then arts
  else assignVecs arts (getEmb svc (embedTexts arts))

/-- The whole of `cluster_articles_temporal` (lines 170-221) with the
embedding service abstracted: an empty batch returns the history untouched;
otherwise embed, cluster per date bucket at the hardcoded threshold 0.75,
and merge into the history. -/
def cluster_articles_temporal (svc : List String → Option (List (List ℚ)))
    (newArticles existingItems : List Article) : Option (List Article) :=
  if newArticles.isEmpty then some existingItems
  else mergeStep (current_batch_clustered (3 / 4) (embedStep svc newArticles)) existingItems

/-! ### Concrete articles and services used by witnesses and counterexamples -/

/-- Article with density 4 whose vector sits between the `artB8` direction
and the `artX8`/`artY8` pair: anchor of the first cluster in the C8
counterexample. -/
def artW : Article := ⟨"w", "uw", "s", "01-10-2026", "", 4, some [2, 0, 3], []⟩

/-- Article with density 3: absorbed by `artW` at the loose threshold,
its own anchor at the strict one. -/
def artB8 : Article := ⟨"b", "ub", "s", "01-10-2026", "", 3, some [1, 0, 0], []⟩

/-- Article with density 2: similar to `artB8` but not to `artW`. -/
def artX8 : Article := ⟨"x", "ux8", "s", "01-10-2026", "", 2, some [5, 3, 0], []⟩

/-- Article with density 1: similar to `artB8` and `artX8`'s mirror. -/
def artY8 : Article := ⟨"y", "uy8", "s", "01-10-2026", "", 1, some [5, -3, 0], []⟩

/-- The four-article single-bucket batch of the C8 counterexample. -/
def batch8 : List Article := [artW, artB8, artX8, artY8]

/-- New anchor carrying a URL also used by `artDup2` and `artEx`. -/
def artDup1 : Article := ⟨"t1", "https://a.com/x", "s1", "01-10-2026", "", 5, none, []⟩

/-- Second new anchor with the same URL as `artDup1`. -/
def artDup2 : Article := ⟨"t2", "https://a.com/x", "s2", "01-10-2026", "", 3, none, []⟩

/-- Two same-date articles with identical embeddings: a one-cluster witness
batch for the clustering claims. -/
def artV1 : Article := ⟨"v1", "uv1", "s", "01-10-2026", "", 5, some [1, 0], []⟩

/-- Second member of the one-cluster witness batch. -/
def artV2 : Article := ⟨"v2", "uv2", "s", "01-10-2026", "", 3, some [1, 0], []⟩

/-- Existing history entry sharing `artDup1`'s URL, for the dedup witness. -/
def artEx : Article := ⟨"ex", "https://a.com/x", "se", "01-09-2026", "", 0, none, []⟩

/-- New anchor later truncated away in the first merge: oldest date, first
in batch order. -/
def artOldX : Article := ⟨"x", "ux", "sx", "01-01-2026", "", 0, none, []⟩

/-- Second new anchor with the same (oldest) date. -/
def artOldA : Article := ⟨"a", "ua", "sa", "01-01-2026", "", 0, none, []⟩

/-- History entry, one day newer than the two anchors. -/
def artNewE : Article := ⟨"e", "ue", "se", "01-02-2026", "", 0, none, []⟩

/-- History of 999 copies of `artNewE`: together with the two new anchors
it overflows the 1000-entry window by one. -/
def bigL : List Article := List.replicate 999 artNewE

/-- Always-succeeding embedding service returning one empty vector per
text, used only to witness C7. -/
def svcW : List String → Option (List (List ℚ)) := fun b => some (b.map (fun _ => []))

/-! ### Vector lemmas -/

lemma dot_cons (x y : ℚ) (v w : List ℚ) : dot (x :: v) (y :: w) = x * y + dot v w := by
  simp [dot]

lemma dot_self_nonneg : ∀ v : List ℚ, 0 ≤ dot v v
  | [] => le_refl 0
  | x :: v => by
    rw [dot_cons]
    exact add_nonneg (mul_self_nonneg x) (dot_self_nonneg v)

lemma normSq_nonneg (v : List ℚ) : 0 ≤ normSq v := dot_self_nonneg v

lemma simGT_of_degenerate (t : ℚ) (v w : List ℚ)
    (h : normSq v = 0 ∨ normSq w = 0) : simGT v w t = false := by
  rcases h with h | h <;> simp [simGT, h]

lemma simGT_mono {v w : List ℚ} {t1 t2 : ℚ} (h0 : 0 ≤ t1) (h12 : t1 ≤ t2)
    (h : simGT v w t2 = true) : simGT v w t1 = true := by
  simp only [simGT, decide_eq_true_eq] at h ⊢
  obtain ⟨hn, hd, hlt⟩ := h
  refine ⟨hn, hd, lt_of_le_of_lt ?_ hlt⟩
  exact mul_le_mul_of_nonneg_right (pow_le_pow_left₀ h0 h12 2) (le_of_lt hn)

/-! ### Greedy clustering invariants -/

lemma addToFirstMatch_mem {t : ℚ} {v : List ℚ} {x : Article} :
    ∀ {cls cls' : List (List Article)}, addToFirstMatch t v x cls = some cls' →
      ∀ c ∈ cls', c ∈ cls ∨ ∃ c0 ∈ cls, c = c0 ++ [x] := by
  intro cls
  induction cls with
  | nil => intro cls' h; simp [addToFirstMatch] at h
  | cons c0 cs ih =>
    intro cls' h c hc
    rw [addToFirstMatch] at h
    split at h
    · cases h
      rcases List.mem_cons.mp hc with rfl | hcs
      · exact Or.inr ⟨c0, List.mem_cons_self c0 cs, rfl⟩
      · exact Or.inl (List.mem_cons_of_mem c0 hcs)
    · rename_i hm
      cases haux : addToFirstMatch t v x cs with
      | none => rw [haux] at h; cases h
      | some cs' =>
        rw [haux] at h
        cases h
        rcases List.mem_cons.mp hc with rfl | hcs
        · exact Or.inl (List.mem_cons_self c cs)
        · rcases ih haux c hcs with h1 | ⟨d0, hd0, rfl⟩
          · exact Or.inl (List.mem_cons_of_mem c0 h1)
          · exact Or.inr ⟨d0, List.mem_cons_of_mem c0 hd0, rfl⟩

lemma clusterStep_mem {t : ℚ} {cls : List (List Article)} {x : Article} :
    ∀ c ∈ clusterStep t cls x,
      c ∈ cls ∨ ((∃ c0 ∈ cls, c = c0 ++ [x]) ∨ c = [x]) ∧ x.vec.isSome = true := by
  intro c hc
  cases hx : x.vec with
  | none => simp only [clusterStep, hx] at hc; exact Or.inl hc
  | some v =>
    simp only [clusterStep, hx] at hc
    cases haux : addToFirstMatch t v x cls with
    | some cls' =>
      rw [haux] at hc
      rcases addToFirstMatch_mem haux c hc with h | h
      · exact Or.inl h
      · exact Or.inr ⟨Or.inl h, rfl⟩
    | none =>
      rw [haux] at hc
      rcases List.mem_append.mp hc with h | h
      · exact Or.inl h
      · simp only [List.mem_singleton] at h
        exact Or.inr ⟨Or.inr h, rfl⟩

lemma foldl_clusterStep_inv (t : ℚ) :
    ∀ (l : List Article) (cls : List (List Article)) (s : List Article),
      (∀ c ∈ cls, c ≠ [] ∧ c.Sublist s ∧ ∀ a ∈ c, a.vec.isSome = true) →
      ∀ c ∈ l.foldl (clusterStep t) cls,
        c ≠ [] ∧ c.Sublist (s ++ l) ∧ ∀ a ∈ c, a.vec.isSome = true := by
  intro l
  induction l with
  | nil =>
    intro cls s H c hc
    rw [List.foldl_nil] at hc
    obtain ⟨hne, hsub, hv⟩ := H c hc
    exact ⟨hne, by simpa using hsub, hv⟩
  | cons x l ih =>
    intro cls s H c hc
    rw [List.foldl_cons] at hc
    have H' : ∀ c ∈ clusterStep t cls x,
        c ≠ [] ∧ c.Sublist (s ++ [x]) ∧ ∀ a ∈ c, a.vec.isSome = true := by
      intro c hc'
      rcases clusterStep_mem c hc' with hin | ⟨hshape, hvec⟩
      · obtain ⟨hne, hsub, hv⟩ := H c hin
        exact ⟨hne, hsub.trans (List.sublist_append_left s [x]), hv⟩
      · rcases hshape with ⟨c0, hc0, rfl⟩ | rfl
        · obtain ⟨hne, hsub, hv⟩ := H c0 hc0
          refine ⟨by simp, hsub.append (List.Sublist.refl [x]), ?_⟩
          intro a ha
          rcases List.mem_append.mp ha with h | h
          · exact hv a h
          · rw [List.mem_singleton] at h; subst h; exact hvec
        · refine ⟨by simp, List.sublist_append_right s [x], ?_⟩
          intro a ha
          rw [List.mem_singleton] at ha; subst ha; exact hvec
    have hres := ih (clusterStep t cls x) (s ++ [x]) H' c hc
    rwa [List.append_assoc, List.singleton_append] at hres

lemma clustersForDay_spec (t : ℚ) (day : List Article) :
    ∀ c ∈ clustersForDay t day,
      c ≠ [] ∧ c.Sublist (List.insertionSort densGE day) ∧ ∀ a ∈ c, a.vec.isSome = true := by
  intro c hc
  have hres := foldl_clusterStep_inv t (List.insertionSort densGE day) [] []
    (by intro c h; cases h) c hc
  simpa using hres

lemma mem_allClusters {t : ℚ} {arts c : List Article} (hc : c ∈ allClusters t arts) :
    ∃ d, c ∈ clustersForDay t (arts.filter (fun a => decide (a.date = d))) := by
  simp only [allClusters, List.mem_flatten, List.mem_map] at hc
  obtain ⟨L, ⟨d, _, rfl⟩, hcL⟩ := hc
  exact ⟨d, hcL⟩

lemma orderedInsert_filter_eq {k : Nat} {x : Article} (hk : x.density = k) :
    ∀ s : List Article,
      (List.orderedInsert densGE x s).filter (fun b => decide (b.density = k)) =
        x :: s.filter (fun b => decide (b.density = k))
  | [] => by simp [List.orderedInsert, hk]
  | b :: s => by
    rw [List.orderedInsert]
    by_cases hb : densGE x b
    · rw [if_pos hb, List.filter_cons_of_pos (by simp [hk])]
    · have hpb : ¬ (fun b => decide (b.density = k)) b = true := by
        intro hbk
        simp only [decide_eq_true_eq] at hbk
        exact hb (by rw [densGE, hbk, hk])
      rw [if_neg hb,
        @List.filter_cons_of_neg _ (fun a => decide (a.density = k)) b
          (List.orderedInsert densGE x s) hpb,
        @List.filter_cons_of_neg _ (fun a => decide (a.density = k)) b s hpb,
        orderedInsert_filter_eq hk s]

lemma orderedInsert_filter_ne {k : Nat} {x : Article} (hk : x.density ≠ k) :
    ∀ s : List Article,
      (List.orderedInsert densGE x s).filter (fun b => decide (b.density = k)) =
        s.filter (fun b => decide (b.density = k))
  | [] => by simp [List.orderedInsert, hk]
  | b :: s => by
    rw [List.orderedInsert]
    by_cases hb : densGE x b
    · rw [if_pos hb, List.filter_cons_of_neg (by simp [hk])]
    · rw [if_neg hb]
      by_cases hpb : b.density = k
      · rw [List.filter_cons_of_pos (by simp [hpb]), List.filter_cons_of_pos (by simp [hpb]),
          orderedInsert_filter_ne hk s]
      · rw [List.filter_cons_of_neg (by simp [hpb]), List.filter_cons_of_neg (by simp [hpb]),
          orderedInsert_filter_ne hk s]

lemma insertionSort_densGE_filter (k : Nat) :
    ∀ l : List Article,
      (List.insertionSort densGE l).filter (fun b => decide (b.density = k)) =
        l.filter (fun b => decide (b.density = k)) := by
  intro l
  induction l with
  | nil => rfl
  | cons x l ih =>
    rw [List.insertionSort]
    by_cases hk : x.density = k
    · rw [orderedInsert_filter_eq hk, ih, List.filter_cons_of_pos (by simp [hk])]
    · rw [orderedInsert_filter_ne hk, ih, List.filter_cons_of_neg (by simp [hk])]

/-- C1: two articles whose `date` values differ are never placed in the same
cluster by `cluster_articles_temporal`'s per-day greedy clustering: every
cluster it produces is built from one date bucket, so all its members share
one `date`. -/
theorem c1 (t : ℚ) (arts : List Article) (c : List Article)
    (hc : c ∈ allClusters t arts) : ∀ a ∈ c, ∀ b ∈ c, a.date = b.date := by
  obtain ⟨d, hcd⟩ := mem_allClusters hc
  obtain ⟨-, hsub, -⟩ := clustersForDay_spec t _ c hcd
  have hdate : ∀ a ∈ c, a.date = d := by
    intro a ha
    have h1 := hsub.subset ha
    rw [List.mem_insertionSort] at h1
    simpa using (List.mem_filter.mp h1).2
  intro a ha b hb
  rw [hdate a ha, hdate b hb]

/-- Witness for C1 at a concrete two-article batch forming one cluster. -/
theorem c1_witness :
    ([artV1, artV2] ∈ allClusters (3 / 4) [artV1, artV2]) ∧
    (∀ a ∈ [artV1, artV2], ∀ b ∈ [artV1, artV2], a.date = b.date) :=
  ⟨by decide, c1 (3 / 4) [artV1, artV2] [artV1, artV2] (by decide)⟩

/-- C2: the clustering is a pure function of the batch, the embeddings and
the threshold (determinism is immediate from the embedding being a
function), and in every produced cluster the anchor (first member, the one
promoted at line 210) has maximal `density` among the members; members tied
with the anchor's density occur in the cluster in batch (discovery) order,
anchor first, because the densest-first sort is stable. -/
theorem c2 (t : ℚ) (arts : List Article) (c : List Article)
    (hc : c ∈ allClusters t arts) :
    ∃ a rest, c = a :: rest
      ∧ (∀ b ∈ c, b.density ≤ a.density)
      ∧ c.Sublist (List.insertionSort densGE
          (arts.filter (fun x => decide (x.date = a.date))))
      ∧ (c.filter (fun b => decide (b.density = a.density))).Sublist arts := by
  obtain ⟨d, hcd⟩ := mem_allClusters hc
  obtain ⟨hne, hsub, -⟩ := clustersForDay_spec t _ c hcd
  obtain ⟨a, rest, rfl⟩ := List.exists_cons_of_ne_nil hne
  have had : a.date = d := by
    have h1 := hsub.subset (List.mem_cons_self a rest)
    rw [List.mem_insertionSort] at h1
    simpa using (List.mem_filter.mp h1).2
  subst had
  refine ⟨a, rest, rfl, ?_, hsub, ?_⟩
  · have hsorted : (a :: rest).Pairwise densGE :=
      List.Pairwise.sublist hsub (List.sorted_insertionSort densGE _)
    intro b hb
    rcases List.mem_cons.mp hb with rfl | hbr
    · exact le_refl _
    · exact (List.pairwise_cons.mp hsorted).1 b hbr
  · have h1 := hsub.filter (fun b => decide (b.density = a.density))
    rw [insertionSort_densGE_filter] at h1
    exact h1.trans ((List.filter_sublist _).trans (List.filter_sublist _))

/-- Witness for C2 at the same concrete one-cluster batch. -/
theorem c2_witness :
    ([artV1, artV2] ∈ allClusters (3 / 4) [artV1, artV2]) ∧
    (∃ a rest, [artV1, artV2] = a :: rest
      ∧ (∀ b ∈ [artV1, artV2], b.density ≤ a.density)
      ∧ List.Sublist [artV1, artV2] (List.insertionSort densGE
          ([artV1, artV2].filter (fun x => decide (x.date = a.date))))
      ∧ List.Sublist ([artV1, artV2].filter
          (fun b => decide (b.density = a.density))) [artV1, artV2]) :=
  ⟨by decide, c2 (3 / 4) [artV1, artV2] [artV1, artV2] (by decide)⟩

/-- C8 fails on the code: at the lower threshold 1/2 the greedy pass makes
three clusters of `batch8`, at the higher threshold 4/5 only two, because
the article `artB8` is absorbed by `artW`'s cluster at 1/2 but becomes its
own anchor at 4/5 and then absorbs both `artX8` and `artY8`. -/
theorem c8_cex :
    ((0 : ℚ) < 1 / 2 ∧ (1 : ℚ) / 2 < 4 / 5 ∧ (4 : ℚ) / 5 ≤ 1) ∧
    ¬ ((allClusters (1 / 2) batch8).length ≤ (allClusters (4 / 5) batch8).length) := by
  exact ⟨⟨by decide, by decide, by decide⟩, by decide⟩

/-- C8 amended: the individual similarity test is monotone in the
threshold — a pair of vectors whose cosine similarity exceeds the higher
threshold also exceeds the lower one; the produced cluster count itself is
not monotone in the threshold. -/
theorem c8_amended (v w : List ℚ) (t1 t2 : ℚ) (h0 : 0 < t1) (h12 : t1 ≤ t2)
    (h : simGT v w t2 = true) : simGT v w t1 = true :=
  simGT_mono h0.le h12 h

/-! ### Merge-step lemmas -/

lemma mergeStep_eq_some {n e l : List Article} (hm : mergeStep n e = some l) :
    l = (List.insertionSort dateGE (finalNews n e)).take 1000
    ∧ (finalNews n e).all (fun a => (parseDate a.date).isSome) = true := by
  simp only [mergeStep] at hm
  split at hm
  · exact ⟨(Option.some.inj hm).symm, by assumption⟩
  · cases hm

/-- C10: the final sort of the merge step parses each kept entry's `date`
with the fixed `%m-%d-%Y` format; it succeeds exactly when every entry of
the combined list parses, and raises (`none`) as soon as one entry does
not.  The concrete cases pin the format: two-digit and one-digit month and
day forms parse, ISO order, slash separators and invalid calendar dates
are rejected. -/
theorem c10 :
    (∀ n e : List Article,
      (mergeStep n e).isSome = (finalNews n e).all (fun a => (parseDate a.date).isSome))
    ∧ parseDate "12-31-2026" = some (2026, 12, 31)
    ∧ parseDate "1-5-2026" = some (2026, 1, 5)
    ∧ parseDate "02-29-2024" = some (2024, 2, 29)
    ∧ parseDate "2026-12-31" = none
    ∧ parseDate "02-30-2026" = none
    ∧ parseDate "12/31/2026" = none := by
  refine ⟨?_, by decide, by decide, by decide, by decide, by decide, by decide⟩
  intro n e
  simp only [mergeStep]
  split
  · rename_i h; simp [h]
  · rename_i h
    simp only [Bool.not_eq_true] at h
    simp [h]

/-- C9: with an empty new batch, `cluster_articles_temporal` returns the
history exactly as given (line 175), unsorted and untruncated whatever its
contents. -/
theorem c9 (svc : List String → Option (List (List ℚ))) (existing : List Article) :
    cluster_articles_temporal svc [] existing = some existing := rfl

/-- C3 fails on the code: the dedup set is built from the existing items
only (line 216), so two new anchors sharing one URL both survive the merge
and the output carries a duplicate `identity_key`. -/
theorem c3_cex :
    artDup1.url = artDup2.url
    ∧ mergeStep [artDup1, artDup2] [] = some [artDup1, artDup2]
    ∧ ¬ (([artDup1, artDup2].map (fun a => a.url)).Nodup) :=
  ⟨by decide, by decide, by decide⟩

/-- C3 amended: a new anchor whose URL already occurs in the history is
discarded, and provided the new anchors also carry pairwise-distinct URLs
among themselves, the merged list has pairwise-distinct URLs. -/
theorem c3_amended (n e l : List Article)
    (hn : (n.map (fun a => a.url)).Nodup)
    (he : (e.map (fun a => a.url)).Nodup)
    (hm : mergeStep n e = some l) :
    (l.map (fun a => a.url)).Nodup
    ∧ ∀ a ∈ n, a.url ∈ e.map (fun b => b.url) → a ∉ filteredNew n e := by
  obtain ⟨hl, -⟩ := mergeStep_eq_some hm
  constructor
  · have hF : ((finalNews n e).map (fun a => a.url)).Nodup := by
      rw [finalNews, List.map_append, List.nodup_append]
      refine ⟨hn.sublist (List.Sublist.map _ (List.filter_sublist n)), he, ?_⟩
      intro u hu1 hu2
      rw [List.mem_map] at hu1
      obtain ⟨a, ha, rfl⟩ := hu1
      rw [filteredNew, List.mem_filter] at ha
      exact (of_decide_eq_true ha.2) hu2
    have hperm : List.Perm
        ((List.insertionSort dateGE (finalNews n e)).map (fun a => a.url))
        ((finalNews n e).map (fun a => a.url)) :=
      (List.perm_insertionSort dateGE _).map _
    have h2 := hperm.nodup_iff.mpr hF
    subst hl
    rw [List.map_take]
    exact h2.sublist (List.take_sublist _ _)
  · intro a _ hmem
    rw [filteredNew, List.mem_filter]
    rintro ⟨-, hdec⟩
    exact (of_decide_eq_true hdec) hmem

/-- Witness for the amended C3: the duplicate-URL anchor is discarded and
the output keys stay distinct. -/
theorem c3_witness :
    (([artDup1].map (fun a => a.url)).Nodup)
    ∧ (([artEx].map (fun a => a.url)).Nodup)
    ∧ mergeStep [artDup1] [artEx] = some [artEx]
    ∧ (([artEx].map (fun a => a.url)).Nodup
      ∧ ∀ a ∈ [artDup1], a.url ∈ [artEx].map (fun b => b.url) →
          a ∉ filteredNew [artDup1] [artEx]) :=
  ⟨by decide, by decide, by decide,
    c3_amended [artDup1] [artEx] [artEx] (by decide) (by decide) (by decide)⟩

/-- C5: a successful merge returns at most 1000 entries, sorted by parsed
date descending, and the entries it truncates away are exactly the tail of
the sorted list — all dated no later than every kept entry. -/
theorem c5 (n e l : List Article) (hm : mergeStep n e = some l) :
    l.length ≤ 1000
    ∧ l.Sorted dateGE
    ∧ l ++ (List.insertionSort dateGE (finalNews n e)).drop 1000 =
        List.insertionSort dateGE (finalNews n e)
    ∧ ∀ b ∈ (List.insertionSort dateGE (finalNews n e)).drop 1000,
        ∀ a ∈ l, dateKeyD b ≤ dateKeyD a := by
  obtain ⟨hl, -⟩ := mergeStep_eq_some hm
  subst hl
  refine ⟨List.length_take_le _ _, ?_, List.take_append_drop _ _, ?_⟩
  · exact List.Pairwise.sublist (List.take_sublist _ _) (List.sorted_insertionSort dateGE _)
  · intro b hb a ha
    exact List.Sorted.rel_of_mem_take_of_mem_drop (List.sorted_insertionSort dateGE _) ha hb

/-- Witness for C5 at a concrete one-element merge. -/
theorem c5_witness :
    mergeStep [artDup1] [] = some [artDup1]
    ∧ ([artDup1].length ≤ 1000
      ∧ List.Sorted dateGE [artDup1]
      ∧ [artDup1] ++ (List.insertionSort dateGE (finalNews [artDup1] [])).drop 1000 =
          List.insertionSort dateGE (finalNews [artDup1] [])
      ∧ ∀ b ∈ (List.insertionSort dateGE (finalNews [artDup1] [])).drop 1000,
          ∀ a ∈ [artDup1], dateKeyD b ≤ dateKeyD a) :=
  ⟨by decide, c5 [artDup1] [] [artDup1] (by decide)⟩

/-! ### C4: idempotence of the merge step -/

lemma orderedInsert_append_of_not (r : Article → Article → Prop) [DecidableRel r] (x : Article) :
    ∀ (l m : List Article), (∀ y ∈ l, ¬ r x y) →
      List.orderedInsert r x (l ++ m) = l ++ List.orderedInsert r x m := by
  intro l
  induction l with
  | nil => intro m _; rfl
  | cons y l ih =>
    intro m h
    rw [List.cons_append, List.orderedInsert, if_neg (h y (List.mem_cons_self y l)),
      ih m (fun z hz => h z (List.mem_cons_of_mem y hz)), List.cons_append]

lemma orderedInsert_eq_append (r : Article → Article → Prop) [DecidableRel r] (x : Article) :
    ∀ l : List Article, (∀ y ∈ l, ¬ r x y) → List.orderedInsert r x l = l ++ [x] := by
  intro l
  induction l with
  | nil => intro _; rfl
  | cons y l ih =>
    intro h
    rw [List.orderedInsert, if_neg (h y (List.mem_cons_self y l)),
      ih (fun z hz => h z (List.mem_cons_of_mem y hz)), List.cons_append]

lemma bigL_length : bigL.length = 999 := by
  rw [bigL, List.length_replicate]

lemma bigL_sorted : bigL.Sorted dateGE := by
  rw [bigL]
  exact List.pairwise_replicate.mpr (Or.inr (le_refl _))

lemma bigL_not_dateGE_oldX : ∀ y ∈ bigL, ¬ dateGE artOldX y := by
  intro y hy
  rw [bigL] at hy
  rw [List.eq_of_mem_replicate hy]
  decide

lemma bigL_not_dateGE_oldA : ∀ y ∈ bigL, ¬ dateGE artOldA y := by
  intro y hy
  rw [bigL] at hy
  rw [List.eq_of_mem_replicate hy]
  decide

lemma bigL_all_parse : bigL.all (fun a => (parseDate a.date).isSome) = true := by
  rw [List.all_eq_true]
  intro a ha
  rw [bigL] at ha
  rw [List.eq_of_mem_replicate ha]
  decide

lemma not_mem_bigL_urls_x : ¬ artOldX.url ∈ bigL.map (fun b => b.url) := by
  rw [bigL, List.map_replicate]
  intro h
  exact absurd (List.eq_of_mem_replicate h) (by decide)

lemma not_mem_bigL_urls_a : ¬ artOldA.url ∈ bigL.map (fun b => b.url) := by
  rw [bigL, List.map_replicate]
  intro h
  exact absurd (List.eq_of_mem_replicate h) (by decide)

set_option maxRecDepth 40000 in
lemma c4_first_merge : mergeStep [artOldX, artOldA] bigL = some (bigL ++ [artOldX]) := by
  have hfil : filteredNew [artOldX, artOldA] bigL = [artOldX, artOldA] := by
    rw [filteredNew,
      @List.filter_cons_of_pos _ (fun a => decide (a.url ∉ bigL.map (fun b => b.url)))
        artOldX [artOldA] (decide_eq_true not_mem_bigL_urls_x),
      @List.filter_cons_of_pos _ (fun a => decide (a.url ∉ bigL.map (fun b => b.url)))
        artOldA [] (decide_eq_true not_mem_bigL_urls_a), List.filter_nil]
  have hall : (finalNews [artOldX, artOldA] bigL).all
      (fun a => (parseDate a.date).isSome) = true := by
    rw [finalNews, hfil, List.all_append, bigL_all_parse, Bool.and_true]
    decide
  have hsort : List.insertionSort dateGE ([artOldX, artOldA] ++ bigL) =
      bigL ++ [artOldX, artOldA] := by
    show List.insertionSort dateGE (artOldX :: artOldA :: bigL) = _
    rw [List.insertionSort, List.insertionSort, List.Sorted.insertionSort_eq bigL_sorted,
      orderedInsert_eq_append dateGE artOldA bigL bigL_not_dateGE_oldA,
      orderedInsert_append_of_not dateGE artOldX bigL [artOldA] bigL_not_dateGE_oldX,
      List.orderedInsert, if_pos (by decide)]
  show (if (finalNews [artOldX, artOldA] bigL).all (fun a => (parseDate a.date).isSome) = true
      then some ((List.insertionSort dateGE (finalNews [artOldX, artOldA] bigL)).take 1000)
      else none) = some (bigL ++ [artOldX])
  rw [if_pos hall, show finalNews [artOldX, artOldA] bigL = [artOldX, artOldA] ++ bigL from
    by rw [finalNews, hfil], hsort, List.take_append_eq_append_take,
    List.take_of_length_le (show bigL.length ≤ 1000 from by rw [bigL_length]; omega), bigL_length]
  rfl

lemma mem_M_urls_x : artOldX.url ∈ (bigL ++ [artOldX]).map (fun b => b.url) := by
  rw [List.map_append, List.mem_append]
  exact Or.inr (by rw [List.map_singleton, List.mem_singleton])

lemma not_mem_M_urls_a : ¬ artOldA.url ∈ (bigL ++ [artOldX]).map (fun b => b.url) := by
  rw [List.map_append, List.mem_append]
  rintro (h | h)
  · exact not_mem_bigL_urls_a (by rw [bigL, List.map_replicate] at h ⊢; exact h)
  · rw [List.map_singleton, List.mem_singleton] at h
    exact absurd h (by decide)

set_option maxRecDepth 40000 in
lemma c4_second_merge :
    mergeStep [artOldX, artOldA] (bigL ++ [artOldX]) = some (bigL ++ [artOldA]) := by
  have hfil : filteredNew [artOldX, artOldA] (bigL ++ [artOldX]) = [artOldA] := by
    rw [filteredNew,
      @List.filter_cons_of_neg _
        (fun a => decide (a.url ∉ (bigL ++ [artOldX]).map (fun b => b.url)))
        artOldX [artOldA] (fun hdec => of_decide_eq_true hdec mem_M_urls_x),
      @List.filter_cons_of_pos _
        (fun a => decide (a.url ∉ (bigL ++ [artOldX]).map (fun b => b.url)))
        artOldA [] (decide_eq_true not_mem_M_urls_a), List.filter_nil]
  have hsortM : List.insertionSort dateGE (bigL ++ [artOldX]) = bigL ++ [artOldX] := by
    refine List.Sorted.insertionSort_eq ?_
    rw [List.Sorted, List.pairwise_append]
    refine ⟨bigL_sorted, List.pairwise_singleton _ _, ?_⟩
    intro a ha b hb
    rw [bigL] at ha
    rw [List.eq_of_mem_replicate ha]
    rw [List.mem_singleton] at hb
    rw [hb]
    decide
  have hall : (finalNews [artOldX, artOldA] (bigL ++ [artOldX])).all
      (fun a => (parseDate a.date).isSome) = true := by
    rw [finalNews, hfil, List.all_append, List.all_append, bigL_all_parse]
    decide
  have hsort : List.insertionSort dateGE (artOldA :: (bigL ++ [artOldX])) =
      bigL ++ [artOldA, artOldX] := by
    rw [List.insertionSort, hsortM,
      orderedInsert_append_of_not dateGE artOldA bigL [artOldX] bigL_not_dateGE_oldA,
      List.orderedInsert, if_pos (by decide)]
  show (if (finalNews [artOldX, artOldA] (bigL ++ [artOldX])).all
        (fun a => (parseDate a.date).isSome) = true
      then some ((List.insertionSort dateGE
        (finalNews [artOldX, artOldA] (bigL ++ [artOldX]))).take 1000)
      else none) = some (bigL ++ [artOldA])
  rw [if_pos hall, show finalNews [artOldX, artOldA] (bigL ++ [artOldX]) =
      artOldA :: (bigL ++ [artOldX]) from by rw [finalNews, hfil, List.singleton_append],
    hsort, List.take_append_eq_append_take,
    List.take_of_length_le (show bigL.length ≤ 1000 from by rw [bigL_length]; omega), bigL_length]
  rfl

/-- C4 fails on the code: with a 999-entry newer history and two new
same-date anchors, the first merge truncates away the second anchor
(`artOldA`); re-merging the same batch re-inserts it ahead of the kept
equal-date anchor (the stable sort puts fresh entries before equal-date
persisted ones) and truncates the other anchor instead, so the two results
differ. -/
theorem c4_cex :
    mergeStep [artOldX, artOldA] bigL = some (bigL ++ [artOldX])
    ∧ mergeStep [artOldX, artOldA] (bigL ++ [artOldX]) = some (bigL ++ [artOldA])
    ∧ bigL ++ [artOldX] ≠ bigL ++ [artOldA] := by
  refine ⟨c4_first_merge, c4_second_merge, ?_⟩
  intro h
  exact absurd (List.append_cancel_left h) (by decide)

/-- C4 amended: when the first merge does not truncate (the deduplicated
combined list fits in the 1000-entry window), merging the same new batch
into its result returns that result unchanged. -/
theorem c4_amended (n e M : List Article)
    (hlen : (finalNews n e).length ≤ 1000)
    (hm : mergeStep n e = some M) :
    mergeStep n M = some M := by
  obtain ⟨hM, hall⟩ := mergeStep_eq_some hm
  rw [List.take_of_length_le (by rw [List.length_insertionSort]; exact hlen)] at hM
  have hmemM : ∀ a : Article, a ∈ M ↔ a ∈ finalNews n e := by
    intro a
    rw [hM, List.mem_insertionSort]
  have hfil2 : filteredNew n M = [] := by
    rw [filteredNew, List.filter_eq_nil_iff]
    intro a ha hdec
    apply of_decide_eq_true hdec
    by_cases hcase : a.url ∈ e.map (fun b => b.url)
    · obtain ⟨b, hb, hbe⟩ := List.mem_map.mp hcase
      exact List.mem_map.mpr ⟨b, (hmemM b).mpr (List.mem_append_right _ hb), hbe⟩
    · have hmem : a ∈ filteredNew n e := by
        rw [filteredNew, List.mem_filter]
        exact ⟨ha, decide_eq_true hcase⟩
      exact List.mem_map.mpr ⟨a, (hmemM a).mpr (List.mem_append_left _ hmem), rfl⟩
  have hall2 : M.all (fun a => (parseDate a.date).isSome) = true := by
    rw [List.all_eq_true] at hall ⊢
    intro a ha
    exact hall a ((hmemM a).mp ha)
  have hsorted : M.Sorted dateGE := by
    rw [hM]
    exact List.sorted_insertionSort dateGE _
  have hMlen : M.length ≤ 1000 := by
    rw [hM, List.length_insertionSort]
    exact hlen
  simp only [mergeStep, finalNews, hfil2, List.nil_append, hall2, if_true]
  rw [List.Sorted.insertionSort_eq hsorted, List.take_of_length_le hMlen]

/-- Witness for the amended C4 at a concrete small merge. -/
theorem c4_witness :
    (finalNews [artDup1] []).length ≤ 1000
    ∧ mergeStep [artDup1] [] = some [artDup1]
    ∧ mergeStep [artDup1] [artDup1] = some [artDup1] :=
  ⟨by decide, by decide, c4_amended [artDup1] [] [artDup1] (by decide) (by decide)⟩

/-! ### C6: cosine similarity and degenerate vectors -/

/-- C6: the clustering comparison computes `dot/(‖v‖·‖w‖) > t`: for
nondegenerate vectors the Boolean test agrees with the real-valued cosine
formula of line 57, and when either vector has zero magnitude the IEEE
quotient is NaN, every comparison with which is false, so the pair is
treated as non-matching and no exception interrupts the run (the Boolean
test is total). -/
theorem c6 (t : ℚ) (v w : List ℚ) (ht : 0 < t) :
    ((normSq v = 0 ∨ normSq w = 0) → simGT v w t = false)
    ∧ (normSq v ≠ 0 → normSq w ≠ 0 →
      (simGT v w t = true ↔
        (t : ℝ) < (dot v w : ℝ) /
          (Real.sqrt (normSq v : ℝ) * Real.sqrt (normSq w : ℝ)))) := by
  refine ⟨simGT_of_degenerate t v w, ?_⟩
  intro hv hw
  have hvq : (0 : ℚ) < normSq v := lt_of_le_of_ne (normSq_nonneg v) (Ne.symm hv)
  have hwq : (0 : ℚ) < normSq w := lt_of_le_of_ne (normSq_nonneg w) (Ne.symm hw)
  have hv' : (0 : ℝ) < (normSq v : ℝ) := by exact_mod_cast hvq
  have hw' : (0 : ℝ) < (normSq w : ℝ) := by exact_mod_cast hwq
  have hNpos : 0 < Real.sqrt (normSq v : ℝ) * Real.sqrt (normSq w : ℝ) :=
    mul_pos (Real.sqrt_pos.mpr hv') (Real.sqrt_pos.mpr hw')
  have hNsq : (Real.sqrt (normSq v : ℝ) * Real.sqrt (normSq w : ℝ)) ^ 2 =
      (normSq v : ℝ) * (normSq w : ℝ) := by
    rw [mul_pow, Real.sq_sqrt hv'.le, Real.sq_sqrt hw'.le]
  rw [lt_div_iff₀ hNpos]
  constructor
  · intro h
    simp only [simGT, decide_eq_true_eq] at h
    obtain ⟨-, hd, hlt⟩ := h
    have hd' : (0 : ℝ) < (dot v w : ℝ) := by exact_mod_cast hd
    have hlt' : (t : ℝ) ^ 2 * ((normSq v : ℝ) * (normSq w : ℝ)) < (dot v w : ℝ) ^ 2 := by
      exact_mod_cast hlt
    have h2 : ((t : ℝ) * (Real.sqrt (normSq v : ℝ) * Real.sqrt (normSq w : ℝ))) ^ 2 <
        (dot v w : ℝ) ^ 2 := by
      rw [mul_pow, hNsq]
      exact hlt'
    exact lt_of_pow_lt_pow_left₀ 2 hd'.le h2
  · intro h
    have ht' : (0 : ℝ) < (t : ℝ) := by exact_mod_cast ht
    have hd' : (0 : ℝ) < (dot v w : ℝ) := lt_trans (mul_pos ht' hNpos) h
    have h2 : ((t : ℝ) * (Real.sqrt (normSq v : ℝ) * Real.sqrt (normSq w : ℝ))) ^ 2 <
        (dot v w : ℝ) ^ 2 := pow_lt_pow_left₀ h (mul_pos ht' hNpos).le two_ne_zero
    rw [mul_pow, hNsq] at h2
    simp only [simGT, decide_eq_true_eq]
    refine ⟨mul_pos hvq hwq, by exact_mod_cast hd', by exact_mod_cast h2⟩

/-- Witness for C6 at a concrete threshold and concrete vectors. -/
theorem c6_witness :
    (0 < (3 : ℚ) / 4) ∧
    (((normSq [(1 : ℚ), 0] = 0 ∨ normSq [(0 : ℚ), 1] = 0) →
        simGT [(1 : ℚ), 0] [(0 : ℚ), 1] (3 / 4) = false)
     ∧ (normSq [(1 : ℚ), 0] ≠ 0 → normSq [(0 : ℚ), 1] ≠ 0 →
       (simGT [(1 : ℚ), 0] [(0 : ℚ), 1] (3 / 4) = true ↔
         ((3 / 4 : ℚ) : ℝ) < (dot [(1 : ℚ), 0] [(0 : ℚ), 1] : ℝ) /
           (Real.sqrt (normSq [(1 : ℚ), 0] : ℝ) * Real.sqrt (normSq [(0 : ℚ), 1] : ℝ))))) :=
  ⟨by decide, c6 (3 / 4) [1, 0] [0, 1] (by decide)⟩

/-! ### C7: embedding batches and failure recovery -/

lemma getEmb_cons (svc : List String → Option (List (List ℚ))) (t : String)
    (ts : List String) :
    getEmb svc (t :: ts) =
      (match svc ((t :: ts).take 5) with
        | some r => r.map some
        | none => List.replicate ((t :: ts).take 5).length none) ++ getEmb svc (ts.drop 4) := by
  rw [getEmb]

lemma getEmb_length (svc : List String → Option (List (List ℚ)))
    (hsvc : ∀ b r, svc b = some r → r.length = b.length) :
    ∀ texts : List String, (getEmb svc texts).length = texts.length
  | [] => by rw [getEmb]; rfl
  | t :: ts => by
    rw [getEmb_cons, List.length_append, getEmb_length svc hsvc (ts.drop 4), List.length_drop]
    cases hs : svc ((t :: ts).take 5) with
    | some r =>
      rw [List.length_map, hsvc _ r hs, List.length_take]
      simp only [List.length_cons]
      omega
    | none =>
      rw [List.length_replicate, List.length_take]
      simp only [List.length_cons]
      omega
termination_by texts => texts.length
decreasing_by
  simp only [List.length_drop, List.length_cons]
  omega

lemma getEmb_get (svc : List String → Option (List (List ℚ)))
    (hsvc : ∀ b r, svc b = some r → r.length = b.length) :
    ∀ (q : Nat) (texts : List String) (j : Nat), j < 5 → 5 * q + j < texts.length →
      (getEmb svc texts)[5 * q + j]? =
        match svc ((texts.drop (5 * q)).take 5) with
        | none => some none
        | some r => (r[j]?).map some := by
  intro q
  induction q with
  | zero =>
    intro texts j hj hlen
    simp only [Nat.mul_zero, Nat.zero_add, List.drop_zero] at *
    obtain ⟨t, ts, rfl⟩ : ∃ t ts, texts = t :: ts := by
      cases texts with
      | nil => simp at hlen
      | cons t ts => exact ⟨t, ts, rfl⟩
    rw [getEmb_cons]
    cases hs : svc ((t :: ts).take 5) with
    | some r =>
      have hjr : j < (r.map some).length := by
        rw [List.length_map, hsvc _ r hs, List.length_take]
        simp only [List.length_cons] at hlen ⊢
        omega
      rw [List.getElem?_append_left hjr, List.getElem?_map]
    | none =>
      have hjr : j < (List.replicate ((t :: ts).take 5).length
          (none : Option (List ℚ))).length := by
        rw [List.length_replicate, List.length_take]
        simp only [List.length_cons] at hlen ⊢
        omega
      rw [List.getElem?_append_left hjr, List.getElem?_replicate_of_lt]
      rw [List.length_replicate] at hjr
      exact hjr
  | succ q ih =>
    intro texts j hj hlen
    obtain ⟨t, ts, rfl⟩ : ∃ t ts, texts = t :: ts := by
      cases texts with
      | nil => simp at hlen
      | cons t ts => exact ⟨t, ts, rfl⟩
    simp only [List.length_cons] at hlen
    rw [getEmb_cons]
    have hchunklen : (match svc ((t :: ts).take 5) with
        | some r => r.map some
        | none => List.replicate ((t :: ts).take 5).length
            (none : Option (List ℚ))).length = 5 := by
      cases hs : svc ((t :: ts).take 5) with
      | some r =>
        rw [List.length_map, hsvc _ r hs, List.length_take]
        simp only [List.length_cons]
        omega
      | none =>
        rw [List.length_replicate, List.length_take]
        simp only [List.length_cons]
        omega
    rw [List.getElem?_append_right (by rw [hchunklen]; omega), hchunklen,
      show 5 * (q + 1) + j - 5 = 5 * q + j from by omega]
    have hbatch : ((t :: ts).drop (5 * (q + 1))).take 5 = ((ts.drop 4).drop (5 * q)).take 5 := by
      rw [List.drop_drop, show 5 * (q + 1) = 5 * q + 4 + 1 from by omega, List.drop_succ_cons,
        show 4 + 5 * q = 5 * q + 4 from by omega]
    rw [hbatch]
    exact ih (ts.drop 4) j hj (by rw [List.length_drop]; omega)

/-- C7: the embedding step never raises — `getEmb` is total and returns one
result per input text, aligned by position (entry `5q + j` comes from batch
`q` at offset `j`); a failed batch yields `none` for each of its texts, and
articles left without a vector are excluded from every cluster. -/
theorem c7 (svc : List String → Option (List (List ℚ))) (texts : List String)
    (t : ℚ) (arts : List Article)
    (hsvc : ∀ b r, svc b = some r → r.length = b.length) :
    (getEmb svc texts).length = texts.length
    ∧ (∀ q j : Nat, j < 5 → 5 * q + j < texts.length →
        (getEmb svc texts)[5 * q + j]? =
          match svc ((texts.drop (5 * q)).take 5) with
          | none => some none
          | some r => (r[j]?).map some)
    ∧ (∀ c ∈ allClusters t arts, ∀ a ∈ c, a.vec.isSome = true) := by
  refine ⟨getEmb_length svc hsvc texts,
    fun q j hj hl => getEmb_get svc hsvc q texts j hj hl, ?_⟩
  intro c hc a ha
  obtain ⟨d, hcd⟩ := mem_allClusters hc
  exact (clustersForDay_spec t _ c hcd).2.2 a ha

/-- Witness for C7 at a concrete service and inputs. -/
theorem c7_witness :
    (∀ b r, svcW b = some r → r.length = b.length) ∧
    ((getEmb svcW ["a", "b"]).length = (["a", "b"] : List String).length
     ∧ (∀ q j : Nat, j < 5 → 5 * q + j < (["a", "b"] : List String).length →
         (getEmb svcW ["a", "b"])[5 * q + j]? =
           match svcW (((["a", "b"] : List String).drop (5 * q)).take 5) with
           | none => some none
           | some r => (r[j]?).map some)
     ∧ (∀ c ∈ allClusters (3 / 4) [artV1, artV2], ∀ a ∈ c, a.vec.isSome = true)) := by
  have hyp : ∀ b r, svcW b = some r → r.length = b.length := by
    intro b r h
    rw [← Option.some.inj h, List.length_map]
  exact ⟨hyp, c7 svcW ["a", "b"] (3 / 4) [artV1, artV2] hyp⟩

/-- Witness for the amended C8 at concrete vectors and thresholds. -/
theorem c8_amended_witness :
    ((0 : ℚ) < 1 / 2 ∧ (1 : ℚ) / 2 ≤ 3 / 4 ∧ simGT [1, 0] [1, 0] (3 / 4) = true) ∧
    simGT [1, 0] [1, 0] (1 / 2) = true :=
  ⟨⟨by decide, by decide, by decide⟩,
    c8_amended [1, 0] [1, 0] (1 / 2) (3 / 4) (by decide) (by decide) (by decide)⟩

end Forge
